import Mathlib

set_option linter.unnecessarySimpa false

/-
Verification of the alloc-no-stdlib allocator.

The repository provides, in `src/init.rs`, the compile-time freelist
synthesizer (`static_array!`), the per-strategy constructor macros
(`declare_stack_allocator_struct!`, `bind_memory_buffer_to_allocator!`,
`define_heap_memory_structure!`), and, in `tests/lib.rs`, the behavioral
test oracle.  The allocator core (`StackAllocator`, `alloc_cell`,
`free_cell`) is declared and exercised by those files but its body is not
part of the sources; it is modelled here from the specification
(sections 3, 4.2, 4.3, 7), with every ambiguity resolved in favor of the
expected values asserted by the tests (the spec's designated oracle).
Regions are modelled as lists of byte values, cells as offset/length
views, and machine integers as Nat (no test or spec behavior depends on
usize overflow, so no modular reduction arises).
-/

/-- Initialization policy passed to every constructor: `bzero` pre-zeroes
what a caller is about to observe, `uninitialized` leaves memory as-is
(the `uninitialized` / `bzero` functions referenced by `tests/lib.rs`). -/
inductive Policy where
  | uninitialized : Policy
  | bzero : Policy
deriving DecidableEq

/-- A contiguous sub-run of the Region.  `off` is the start offset into the
Region, `len` the length exposed to the caller, `cap` the true capacity of
the underlying slice (`len ≤ cap`; the excess is invisible length-wise but
its bytes travel with the cell and are restored to the free-list on free).
A free-list slot stores a cell with `len = cap`; the empty placeholder and
the `nop` cell are the empty slice (`len = cap = 0`). -/
structure Cell where
  off : Nat
  len : Nat
  cap : Nat
deriving DecidableEq

/-- The empty slice `&mut []`: placeholder of an unoccupied free-list slot
and value of the allocator's `nop` field. -/
def emptyCell : Cell := ⟨0, 0, 0⟩

/-- State of the allocator core (spec section 4.3): the `nop` cell, the
free-list slot array, the bump cursor `free_list_start` (slots below it are
empty, slots at or above it are occupied), the overflow counter, the
initialization policy chosen at construction, and the Region's byte
contents.  The field names follow the struct literal built by
`declare_stack_allocator_struct!` in `src/init.rs`; the policy field is
modelled from the spec (section 4.2/6: "each constructor also takes an
initialization policy"), as the core struct is not among the sources. -/
structure StackAllocator where
  nop : Cell
  freelist : List Cell
  free_list_start : Nat
  free_list_overflow_count : Nat
  init_policy : Policy
  mem : List Nat
deriving DecidableEq

/-- Best-fit search over the occupied tail of the free-list: returns the
relative index and capacity of the smallest slot whose capacity is at
least `n` (earliest such slot on ties), or `none` when no slot suffices.
Modelled from the spec: "Reuse prefers the most specific (smallest
sufficient) previously-freed slot" (section 4.3 step 1). -/
def findBestAux : List Cell → Nat → Option (Nat × Nat)
  | [], _ => none
  | c :: rest, n =>
    match findBestAux rest n with
    | none => if n ≤ c.cap then some (0, c.cap) else none
    | some (j, bc) =>
      if n ≤ c.cap ∧ c.cap ≤ bc then some (0, c.cap) else some (j + 1, bc)

/-- Index of the first empty (zero-length) slot, if any.  Modelled from the
spec: "If an empty free-list slot exists, store the Cell there"
(section 4.3, free). -/
def findEmpty : List Cell → Option Nat
  | [] => none
  | c :: rest => if c.len = 0 then some 0 else (findEmpty rest).map (· + 1)

/-- Overwrite `n` positions of `m` starting at `off` with zero. -/
def zeroRange : List Nat → Nat → Nat → List Nat
  | m, _, 0 => m
  | m, off, Nat.succ k => zeroRange (m.set off 0) (off + 1) k

/-- Application of the construction-time policy to the cell being returned
by an allocation.  Modelled from the spec and pinned by the test oracle:
under `bzero` the exposed range of the returned cell reads zero
(`stack_pool_test` asserts `z[0] == 0` although that byte was previously
written with 6), under `uninitialized` memory is untouched. -/
def applyPolicy (s : StackAllocator) (r : Cell) : StackAllocator :=
  match s.init_policy with
  | .uninitialized => s
  | .bzero => { s with mem := zeroRange s.mem r.off r.len }

/-- Modelled from the spec: the body of `StackAllocator::alloc_cell` is not
among the sources (only its callers in `tests/lib.rs`).  Spec section 4.3:
a zero-size request returns the `nop` cell unconditionally; otherwise the
occupied slots are searched for the smallest sufficient capacity.  A found
slot fitting exactly, or with small excess (capacity below `n + 32`) while
not the last slot of the array, is removed whole — exposed length truncated
to `n`, excess capacity hidden but carried — and the occupied tail is
compacted by moving the slot at the cursor into the hole; otherwise exactly
`n` elements are carved from the slot's front, the remainder staying in the
slot (this is the "carve a fresh Cell from the unconsumed remainder" path:
the Region's virgin remainder lives in the free-list as the large initial
cell, which the constructors place in the last slot).  The split rule is
not stated numerically by the spec; it is the division between "reused
slot, excess invisible" and "carved exactly" forced by the section 8
scenarios (9999 out of 65536 must split, 3 out of 4 must be taken whole,
and in scenario 3 a last-slot remainder of 62 must split so that all
sixteen 31-element requests succeed).
When no slot suffices the overflow counter is incremented and the degraded
zero-length `nop` cell is returned; allocation never fails (section 7). -/
def alloc_cell (s : StackAllocator) (n : Nat) : Cell × StackAllocator :=
  if n = 0 then (s.nop, s)
  else
    match findBestAux (s.freelist.drop s.free_list_start) n with
    | none =>
      (s.nop, { s with free_list_overflow_count := s.free_list_overflow_count + 1 })
    | some (j, c) =>
      let i := s.free_list_start + j
      let slot := s.freelist.getD i emptyCell
      if c = n ∨ (c < n + 32 ∧ i + 1 ≠ s.freelist.length) then
        let r : Cell := ⟨slot.off, n, slot.cap⟩
        let fl := (s.freelist.set i (s.freelist.getD s.free_list_start emptyCell)).set
          s.free_list_start emptyCell
        (r, applyPolicy { s with freelist := fl, free_list_start := s.free_list_start + 1 } r)
      else
        let r : Cell := ⟨slot.off, n, n⟩
        let fl := s.freelist.set i ⟨slot.off + n, slot.cap - n, slot.cap - n⟩
        (r, applyPolicy { s with freelist := fl } r)

/-- Modelled from the spec: the body of `StackAllocator::free_cell` is not
among the sources (only its callers, e.g. the registering free in
`new_allocator`, `src/init.rs` line 87).  Spec sections 3, 4.3, 7: freeing
the zero-length cell is a no-op; otherwise the cell's full capacity is
stored in the empty slot just below the bump cursor, decrementing the
cursor (consistent with the registering free of claim C1); when the cursor
is zero an empty slot is searched for, and if the array is fully occupied
the memory is silently leaked, recorded on the overflow counter
(section 7: "observable via the overflow counter").  Memory contents are
never cleared on free (section 3). -/
def free_cell (s : StackAllocator) (c : Cell) : StackAllocator :=
  if c.len = 0 then s
  else if 0 < s.free_list_start then
    { s with
      free_list_start := s.free_list_start - 1,
      freelist := s.freelist.set (s.free_list_start - 1) ⟨c.off, c.cap, c.cap⟩ }
  else
    match findEmpty s.freelist with
    | some i => { s with freelist := s.freelist.set i ⟨c.off, c.cap, c.cap⟩ }
    | none =>
      { s with free_list_overflow_count := s.free_list_overflow_count + 1 }

/-- Read position `i` of a cell's exposed range (out-of-range reads of the
model return 0, the test scenarios stay in bounds). -/
def read_cell (s : StackAllocator) (c : Cell) (i : Nat) : Nat :=
  s.mem.getD (c.off + i) 0

/-- Write value `v` at position `i` of a cell's exposed range. -/
def write_cell (s : StackAllocator) (c : Cell) (i v : Nat) : StackAllocator :=
  if i < c.len then { s with mem := s.mem.set (c.off + i) v } else s

/-- The freelist built by `make_freelist` in the heap arm of
`declare_stack_allocator_struct!` (`src/init.rs` lines 103-109): a loop
pushing `freelist_size` empty slices. -/
def make_freelist (n : Nat) : List Cell := List.replicate n emptyCell

/-- The `new_allocator` generated by `declare_stack_allocator_struct!`
`@new_method` (`src/init.rs` lines 76-91), used by both the stack and the
calloc arms: a struct literal with `nop = &mut []`, a freelist of
`freelist_size` empty slices built by `static_array!`, `free_list_start =
freelist_size`, a zero overflow counter, followed by the registering
`free_cell` of the whole Region.  The policy parameter is modelled from the
spec (section 4.2); the `init.rs` in the sources predates it while the
tests already pass one. -/
def new_allocator (N L : Nat) (m : List Nat) (p : Policy) : StackAllocator :=
  free_cell ⟨emptyCell, List.replicate N emptyCell, N, 0, p, m⟩ ⟨0, L, L⟩

/-- The heap-arm `new_allocator` (`src/init.rs` lines 110-119): same struct
literal with the freelist from `make_freelist`, but no registering free —
the Region is bound later by `bind_memory_buffer_to_allocator!`. -/
def heap_new_allocator (N : Nat) (p : Policy) (m : List Nat) : StackAllocator :=
  ⟨emptyCell, make_freelist N, N, 0, p, m⟩

/-- `bind_memory_buffer_to_allocator!` (`src/init.rs` lines 136-146): a
`free_cell` of the buffer, identical for the calloc, heap and stack arms. -/
def bind_memory_buffer_to_allocator (a : StackAllocator) (L : Nat) : StackAllocator :=
  free_cell a ⟨0, L, L⟩

/-- Modelled from the spec: the constructor of the process-wide static
strategy is not among the sources (the tests call
`GlobalAllocatedFreelist::new_allocator`; `src/init.rs` only declares the
static freelist of empty slices via `static_array!` in the global arm of
`define_heap_memory_structure!`, lines 168-175).  Per spec section 4.2 it
builds the same core state as the other strategies, with the Region bound
afterwards. -/
def global_new_allocator (N : Nat) (p : Policy) (m : List Nat) : StackAllocator :=
  ⟨emptyCell, List.replicate N emptyCell, N, 0, p, m⟩

/-- Modelled from the spec: `bind_global_buffers_to_allocator!` is not
among the sources (the tests invoke it); per spec section 6 it associates
the declared static region with the static allocator — the same
registering free as `bind_memory_buffer_to_allocator!`. -/
def bind_global_buffers_to_allocator (a : StackAllocator) (L : Nat) : StackAllocator :=
  free_cell a ⟨0, L, L⟩

/-- The accumulator of the `static_array!` macro (`src/init.rs` lines
1-33), rule for rule: `(0, es) -> body` yields the accumulated body;
`(1, es) -> body` appends `es` once; `(2, es) -> body` appends `es` twice;
the rules for 4, 8, 16, 32, 64, 128, 256, 1024, 2048 and 4096 double the
expression list and recurse on the named smaller count — note the file has
no rule for 512 and its 1024 rule recurses on 256.  A count matching no
rule is a macro expansion failure, modelled as `none`.  The first argument
bounds the expansion depth so the recursion is structural; `static_array`
supplies a bound larger than any rule chain (the longest, from 4096, takes
eleven steps), so exhausting it never occurs for a count with a rule. -/
def staticArrayAccum {α : Type} : Nat → Nat → List α → List α → Option (List α)
  | 0, n, _, body => if n = 0 then some body else none
  | fuel + 1, n, es, body =>
    if n = 0 then some body
    else if n = 1 then staticArrayAccum fuel 0 es (body ++ es)
    else if n = 2 then staticArrayAccum fuel 0 es (body ++ es ++ es)
    else if n = 4 then staticArrayAccum fuel 2 (es ++ es) body
    else if n = 8 then staticArrayAccum fuel 4 (es ++ es) body
    else if n = 16 then staticArrayAccum fuel 8 (es ++ es) body
    else if n = 32 then staticArrayAccum fuel 16 (es ++ es) body
    else if n = 64 then staticArrayAccum fuel 32 (es ++ es) body
    else if n = 128 then staticArrayAccum fuel 64 (es ++ es) body
    else if n = 256 then staticArrayAccum fuel 128 (es ++ es) body
    else if n = 1024 then staticArrayAccum fuel 256 (es ++ es) body
    else if n = 2048 then staticArrayAccum fuel 1024 (es ++ es) body
    else if n = 4096 then staticArrayAccum fuel 2048 (es ++ es) body
    else none

/-- Entry point of `static_array!` (`src/init.rs` line 32):
`[$expr; $n]` expands to the accumulator started with one copy of the
expression and an empty body. -/
def static_array {α : Type} (e : α) (n : Nat) : Option (List α) :=
  staticArrayAccum 16 n [e] []

/-- Iterated allocation of `k` cells of size `sz`, returning the final
state and the allocated cells in order. -/
def alloc_times (sz : Nat) : Nat → StackAllocator → StackAllocator × List Cell
  | 0, s => (s, [])
  | k + 1, s =>
    let p := alloc_cell s sz
    let q := alloc_times sz k p.2
    (q.1, p.1 :: q.2)

/-- Iterated free of a list of cells, in order. -/
def free_all : List Cell → StackAllocator → StackAllocator
  | [], s => s
  | c :: cs, s => free_all cs (free_cell s c)

/-- The allocate/write/free sequence of `uninitialized_stack_pool_test` /
`stack_pool_test` (`tests/lib.rs`): freelist capacity 4, a 65536-byte
stack Region, returning the values the test asserts on, followed by the
overflow counter. -/
def oracle_scenario_stack (p : Policy) : List Nat :=
  let a0 := new_allocator 4 65536 (List.replicate 65536 0) p
  let q1 := alloc_cell a0 9999
  let a2 := write_cell q1.2 q1.1 0 4
  let q2 := alloc_cell a2 4
  let a4 := write_cell q2.2 q2.1 0 5
  let a5 := free_cell a4 q2.1
  let q3 := alloc_cell a5 3
  let a7 := write_cell q3.2 q3.1 0 6
  let a8 := free_cell a7 q3.1
  let q4 := alloc_cell a8 4
  let a10 := write_cell q4.2 q4.1 1 8
  let q5 := alloc_cell a10 4
  let a12 := write_cell q5.2 q5.1 1 9
  [read_cell a12 q1.1 0, read_cell a12 q4.1 0, read_cell a12 q4.1 1,
   read_cell a12 q5.1 0, read_cell a12 q5.1 1, a12.free_list_overflow_count]

/-- The sequence of `uninitialized_stack_pool_free_null` /
`stack_pool_free_null` (`tests/lib.rs`): freelist capacity 8, a 248-byte
Region, eight zero-size allocations, eight 31-byte allocations written at
index 30, all freed, then eight more 31-byte allocations written at index
30.  Returns the final overflow counter, the cursor, the total exposed
length of the second batch (248 iff all eight succeeded undegraded) and
the sum of the eight values read back at index 30 (32 iff every write
landed). -/
def oracle_scenario_free_null (p : Policy) : List Nat :=
  let a0 := new_allocator 8 248 (List.replicate 248 0) p
  let z8 := (fun st => (alloc_cell st 0).2)^[8] a0
  let q := alloc_times 31 8 z8
  let a1 := q.2.foldl (fun st c => write_cell st c 30 4) q.1
  let a2 := free_all q.2 a1
  let q2 := alloc_times 31 8 a2
  let a3 := q2.2.foldl (fun st c => write_cell st c 30 4) q2.1
  [a3.free_list_overflow_count, a3.free_list_start,
   (q2.2.map Cell.len).foldl (· + ·) 0,
   (q2.2.map (fun c => read_cell a3 c 30)).foldl (· + ·) 0]

theorem getD_drop {α : Type} : ∀ (m : Nat) (l : List α) (i : Nat) (d : α),
    (l.drop m).getD i d = l.getD (m + i) d
  | 0, _, _, _ => by simp
  | _ + 1, [], _, _ => by simp
  | m + 1, _ :: as, i, d => by
    simpa [Nat.succ_add] using getD_drop m as i d

theorem getD_append_length {α : Type} : ∀ (l : List α) (x d : α),
    (l ++ [x]).getD l.length d = x
  | [], _, _ => rfl
  | _ :: as, x, d => getD_append_length as x d

theorem set_append_length {α : Type} : ∀ (l : List α) (x y : α),
    (l ++ [x]).set l.length y = l ++ [y]
  | [], _, _ => rfl
  | a :: as, x, y => by
    simpa using congrArg (a :: ·) (set_append_length as x y)

theorem set_replicate_cons {α : Type} : ∀ (k : Nat) (a x : α) (t : List α),
    (List.replicate (k + 1) a ++ t).set k x = List.replicate k a ++ x :: t
  | 0, _, _, _ => rfl
  | k + 1, a, x, t => by
    simpa [List.replicate_succ] using congrArg (a :: ·) (set_replicate_cons k a x t)

theorem getD_replicate_cons {α : Type} : ∀ (k : Nat) (a x d : α) (t : List α),
    (List.replicate k a ++ x :: t).getD k d = x
  | 0, _, _, _, _ => rfl
  | k + 1, a, x, d, t => by
    simpa [List.replicate_succ] using getD_replicate_cons k a x d t

theorem getD_replicate_lt {α : Type} : ∀ (k i : Nat) (a d : α), i < k →
    (List.replicate k a).getD i d = a
  | k + 1, 0, _, _, _ => rfl
  | k + 1, i + 1, a, d, h => by
    simpa [List.replicate_succ] using getD_replicate_lt k i a d (by omega)

theorem getD_set_ne {α : Type} : ∀ (l : List α) (i k : Nat) (v d : α), i ≠ k →
    (l.set i v).getD k d = l.getD k d
  | [], _, _, _, _, _ => rfl
  | _ :: _, 0, 0, _, _, h => absurd rfl h
  | _ :: _, 0, _ + 1, _, _, _ => rfl
  | _ :: _, _ + 1, 0, _, _, _ => rfl
  | _ :: as, i + 1, k + 1, v, d, h => by
    simpa using getD_set_ne as i k v d (by omega)

theorem set_zero_getD : ∀ (m : List Nat) (o : Nat), (m.set o 0).getD o 0 = 0
  | [], _ => rfl
  | _ :: _, 0 => rfl
  | _ :: as, o + 1 => by simpa using set_zero_getD as o

theorem zeroRange_getD_below : ∀ (n : Nat) (m : List Nat) (o k : Nat), k < o →
    (zeroRange m o n).getD k 0 = m.getD k 0
  | 0, _, _, _, _ => rfl
  | n + 1, m, o, k, h => by
    calc (zeroRange m o (n + 1)).getD k 0
        = (zeroRange (m.set o 0) (o + 1) n).getD k 0 := rfl
      _ = (m.set o 0).getD k 0 := zeroRange_getD_below n (m.set o 0) (o + 1) k (by omega)
      _ = m.getD k 0 := getD_set_ne m o k (0 : Nat) 0 (by omega)

theorem zeroRange_getD_above : ∀ (n : Nat) (m : List Nat) (o k : Nat), o + n ≤ k →
    (zeroRange m o n).getD k 0 = m.getD k 0
  | 0, _, _, _, _ => rfl
  | n + 1, m, o, k, h => by
    calc (zeroRange m o (n + 1)).getD k 0
        = (zeroRange (m.set o 0) (o + 1) n).getD k 0 := rfl
      _ = (m.set o 0).getD k 0 := zeroRange_getD_above n (m.set o 0) (o + 1) k (by omega)
      _ = m.getD k 0 := getD_set_ne m o k (0 : Nat) 0 (by omega)

theorem zeroRange_getD_inside : ∀ (n : Nat) (m : List Nat) (o t : Nat), t < n →
    (zeroRange m o n).getD (o + t) 0 = 0
  | n + 1, m, o, 0, _ => by
    calc (zeroRange m o (n + 1)).getD (o + 0) 0
        = (zeroRange (m.set o 0) (o + 1) n).getD o 0 := rfl
      _ = (m.set o 0).getD o 0 := zeroRange_getD_below n (m.set o 0) (o + 1) o (by omega)
      _ = 0 := set_zero_getD m o
  | n + 1, m, o, t + 1, h => by
    have heq : o + (t + 1) = (o + 1) + t := by omega
    calc (zeroRange m o (n + 1)).getD (o + (t + 1)) 0
        = (zeroRange (m.set o 0) (o + 1) n).getD ((o + 1) + t) 0 := by rw [heq]; rfl
      _ = 0 := zeroRange_getD_inside n (m.set o 0) (o + 1) t (by omega)

theorem findBestAux_none_mem : ∀ (l : List Cell) (n : Nat),
    findBestAux l n = none → ∀ d ∈ l, d.cap < n
  | [], _, _, _, hd => absurd hd (List.not_mem_nil _)
  | c :: rest, n, h, d, hd => by
    rw [findBestAux] at h
    rcases hr : findBestAux rest n with _ | ⟨j, bc⟩
    · rw [hr] at h
      by_cases hc : n ≤ c.cap
      · simp [hc] at h
      · rcases List.mem_cons.mp hd with rfl | hd'
        · omega
        · exact findBestAux_none_mem rest n hr d hd'
    · rw [hr] at h
      by_cases hc : n ≤ c.cap ∧ c.cap ≤ bc <;> simp [hc] at h

theorem findBestAux_mem_none : ∀ (l : List Cell) (n : Nat),
    (∀ d ∈ l, d.cap < n) → findBestAux l n = none
  | [], _, _ => rfl
  | c :: rest, n, h => by
    have hr := findBestAux_mem_none rest n (fun d hd => h d (List.mem_cons_of_mem c hd))
    have hc : ¬ n ≤ c.cap := by
      have := h c (List.mem_cons_self c rest)
      omega
    rw [findBestAux, hr]
    simp [hc]

theorem findBestAux_some_spec : ∀ (l : List Cell) (n j c : Nat),
    findBestAux l n = some (j, c) →
    j < l.length ∧ (l.getD j emptyCell).cap = c ∧ n ≤ c ∧
      ∀ d ∈ l, n ≤ d.cap → c ≤ d.cap
  | [], n, j, c, h => by simp [findBestAux] at h
  | a :: rest, n, j, c, h => by
    rw [findBestAux] at h
    rcases hr : findBestAux rest n with _ | ⟨j', bc⟩
    · simp only [hr] at h
      by_cases hc : n ≤ a.cap
      · rw [if_pos hc] at h
        injection h with h1
        injection h1 with h2 h3
        subst h2; subst h3
        refine ⟨by simp, rfl, hc, ?_⟩
        intro d hd hnd
        rcases List.mem_cons.mp hd with rfl | hd'
        · exact le_refl _
        · exact absurd hnd (by have := findBestAux_none_mem rest n hr d hd'; omega)
      · rw [if_neg hc] at h; exact absurd h (by simp)
    · simp only [hr] at h
      by_cases hc : n ≤ a.cap ∧ a.cap ≤ bc
      · rw [if_pos hc] at h
        injection h with h1
        injection h1 with h2 h3
        subst h2; subst h3
        obtain ⟨hj', hget', hn', hmin'⟩ := findBestAux_some_spec rest n j' bc hr
        refine ⟨by simp, rfl, hc.1, ?_⟩
        intro d hd hnd
        rcases List.mem_cons.mp hd with rfl | hd'
        · exact le_refl _
        · exact le_trans hc.2 (hmin' d hd' hnd)
      · rw [if_neg hc] at h
        injection h with h1
        injection h1 with h2 h3
        subst h2; subst h3
        obtain ⟨hj', hget', hn', hmin'⟩ := findBestAux_some_spec rest n j' bc hr
        refine ⟨by simpa using hj', by simpa using hget', hn', ?_⟩
        intro d hd hnd
        rcases List.mem_cons.mp hd with rfl | hd'
        · rcases Nat.lt_or_ge bc d.cap with hlt | hge
          · omega
          · exact absurd ⟨hnd, hge⟩ hc
        · exact hmin' d hd' hnd

theorem findEmpty_mem_none : ∀ (l : List Cell),
    (∀ d ∈ l, d.len ≠ 0) → findEmpty l = none
  | [], _ => rfl
  | c :: rest, h => by
    have hr := findEmpty_mem_none rest (fun d hd => h d (List.mem_cons_of_mem c hd))
    have hc : ¬ c.len = 0 := h c (List.mem_cons_self c rest)
    simp [findEmpty, hc, hr]

theorem applyPolicy_nop (s : StackAllocator) (r : Cell) :
    (applyPolicy s r).nop = s.nop := by
  cases h : s.init_policy <;> simp [applyPolicy, h]

theorem applyPolicy_freelist (s : StackAllocator) (r : Cell) :
    (applyPolicy s r).freelist = s.freelist := by
  cases h : s.init_policy <;> simp [applyPolicy, h]

theorem applyPolicy_start (s : StackAllocator) (r : Cell) :
    (applyPolicy s r).free_list_start = s.free_list_start := by
  cases h : s.init_policy <;> simp [applyPolicy, h]

theorem applyPolicy_overflow (s : StackAllocator) (r : Cell) :
    (applyPolicy s r).free_list_overflow_count = s.free_list_overflow_count := by
  cases h : s.init_policy <;> simp [applyPolicy, h]

theorem applyPolicy_policy (s : StackAllocator) (r : Cell) :
    (applyPolicy s r).init_policy = s.init_policy := by
  cases h : s.init_policy <;> simp [applyPolicy, h]

theorem applyPolicy_uninit (s : StackAllocator) (r : Cell)
    (h : s.init_policy = Policy.uninitialized) : applyPolicy s r = s := by
  simp [applyPolicy, h]

theorem applyPolicy_bzero_mem (s : StackAllocator) (r : Cell)
    (h : s.init_policy = Policy.bzero) :
    (applyPolicy s r).mem = zeroRange s.mem r.off r.len := by
  simp [applyPolicy, h]

theorem alloc_cell_zero_req (s : StackAllocator) : alloc_cell s 0 = (s.nop, s) := by
  simp [alloc_cell]

theorem alloc_cell_fail (s : StackAllocator) (n : Nat) (hn : n ≠ 0)
    (h : findBestAux (s.freelist.drop s.free_list_start) n = none) :
    alloc_cell s n =
      (s.nop, { s with free_list_overflow_count := s.free_list_overflow_count + 1 }) := by
  simp only [alloc_cell, if_neg hn, h]

theorem alloc_cell_whole (s : StackAllocator) (n j c : Nat) (hn : n ≠ 0)
    (h : findBestAux (s.freelist.drop s.free_list_start) n = some (j, c))
    (hc : c = n ∨ (c < n + 32 ∧ s.free_list_start + j + 1 ≠ s.freelist.length)) :
    alloc_cell s n =
      (⟨(s.freelist.getD (s.free_list_start + j) emptyCell).off, n,
        (s.freelist.getD (s.free_list_start + j) emptyCell).cap⟩,
       applyPolicy
         { s with
           freelist := (s.freelist.set (s.free_list_start + j)
               (s.freelist.getD s.free_list_start emptyCell)).set s.free_list_start emptyCell,
           free_list_start := s.free_list_start + 1 }
         ⟨(s.freelist.getD (s.free_list_start + j) emptyCell).off, n,
          (s.freelist.getD (s.free_list_start + j) emptyCell).cap⟩) := by
  simp only [alloc_cell, if_neg hn, h]
  rw [if_pos hc]

theorem alloc_cell_split (s : StackAllocator) (n j c : Nat) (hn : n ≠ 0)
    (h : findBestAux (s.freelist.drop s.free_list_start) n = some (j, c))
    (hc : ¬ (c = n ∨ (c < n + 32 ∧ s.free_list_start + j + 1 ≠ s.freelist.length))) :
    alloc_cell s n =
      (⟨(s.freelist.getD (s.free_list_start + j) emptyCell).off, n, n⟩,
       applyPolicy
         { s with
           freelist := s.freelist.set (s.free_list_start + j)
             ⟨(s.freelist.getD (s.free_list_start + j) emptyCell).off + n,
              (s.freelist.getD (s.free_list_start + j) emptyCell).cap - n,
              (s.freelist.getD (s.free_list_start + j) emptyCell).cap - n⟩ }
         ⟨(s.freelist.getD (s.free_list_start + j) emptyCell).off, n, n⟩) := by
  simp only [alloc_cell, if_neg hn, h]
  rw [if_neg hc]

theorem free_cell_zero_len (s : StackAllocator) (c : Cell) (h : c.len = 0) :
    free_cell s c = s := by
  simp [free_cell, h]

theorem free_cell_push (s : StackAllocator) (c : Cell) (h : c.len ≠ 0)
    (h2 : 0 < s.free_list_start) :
    free_cell s c =
      { s with
        free_list_start := s.free_list_start - 1,
        freelist := s.freelist.set (s.free_list_start - 1) ⟨c.off, c.cap, c.cap⟩ } := by
  simp [free_cell, h, h2]

theorem free_cell_leak (s : StackAllocator) (c : Cell) (h : c.len ≠ 0)
    (h2 : s.free_list_start = 0) (h3 : findEmpty s.freelist = none) :
    free_cell s c =
      { s with free_list_overflow_count := s.free_list_overflow_count + 1 } := by
  simp [free_cell, h, h2, h3]

theorem free_cell_mem (s : StackAllocator) (c : Cell) : (free_cell s c).mem = s.mem := by
  unfold free_cell
  split
  · rfl
  · split
    · rfl
    · split <;> rfl

theorem free_cell_nop (s : StackAllocator) (c : Cell) : (free_cell s c).nop = s.nop := by
  unfold free_cell
  split
  · rfl
  · split
    · rfl
    · split <;> rfl

theorem free_cell_policy (s : StackAllocator) (c : Cell) :
    (free_cell s c).init_policy = s.init_policy := by
  unfold free_cell
  split
  · rfl
  · split
    · rfl
    · split <;> rfl

theorem alloc_cell_fst_len_le (s : StackAllocator) (n : Nat) (h : s.nop.len = 0) :
    ((alloc_cell s n).1).len ≤ n := by
  by_cases hn : n = 0
  · subst hn; rw [alloc_cell_zero_req]; simp [h]
  · rcases hf : findBestAux (s.freelist.drop s.free_list_start) n with _ | ⟨j, c⟩
    · rw [alloc_cell_fail s n hn hf]; simp [h]
    · by_cases hc : c = n ∨ (c < n + 32 ∧ s.free_list_start + j + 1 ≠ s.freelist.length)
      · rw [alloc_cell_whole s n j c hn hf hc]
      · rw [alloc_cell_split s n j c hn hf hc]

theorem getD_append_lt {α : Type} : ∀ (l t : List α) (i : Nat) (d : α), i < l.length →
    (l ++ t).getD i d = l.getD i d
  | [], _, i, _, h => absurd h (by simp)
  | _ :: _, _, 0, _, _ => rfl
  | _ :: as, t, i + 1, d, h => by
    simpa using getD_append_lt as t i d (by simpa using h)

theorem replicate_set_pred {α : Type} (k : Nat) (a x : α) (h : 0 < k) :
    (List.replicate k a).set (k - 1) x = List.replicate (k - 1) a ++ [x] := by
  obtain ⟨k', rfl⟩ : ∃ k', k = k' + 1 := ⟨k - 1, by omega⟩
  simpa using set_replicate_cons k' a x []

theorem new_allocator_eq (N L : Nat) (m : List Nat) (p : Policy)
    (hN : 0 < N) (hL : 0 < L) :
    new_allocator N L m p =
      ⟨emptyCell, List.replicate (N - 1) emptyCell ++ [⟨0, L, L⟩], N - 1, 0, p, m⟩ := by
  have hcell : (⟨0, L, L⟩ : Cell).len ≠ 0 := by
    show L ≠ 0; omega
  unfold new_allocator
  rw [free_cell_push _ _ hcell (by simpa using hN)]
  rw [show (⟨emptyCell, List.replicate N emptyCell, N, 0, p, m⟩ :
      StackAllocator).freelist = List.replicate N emptyCell from rfl]
  rw [replicate_set_pred N emptyCell ⟨0, L, L⟩ hN]

/-- C1: for every backing-store strategy (bounded-stack and raw-external /
calloc via the `@new_method` `new_allocator`, dynamic/heap via its
`new_allocator` plus `bind_memory_buffer_to_allocator!`, process-wide
static via its constructor plus `bind_global_buffers_to_allocator!`), the
construction entry point establishes the same post-state: a free-list
array of the declared capacity `N`, bump cursor set to that capacity and
then decremented once by the registering free, overflow counter zero, and
the entire Region of length `L` registered as the single initial free
cell in slot `free_list_start - 1 = N - 1`. -/
theorem construction_postcondition_converges (N L : Nat) (m : List Nat) (p : Policy)
    (hN : 0 < N) (hL : 0 < L) :
    new_allocator N L m p = bind_memory_buffer_to_allocator (heap_new_allocator N p m) L ∧
    new_allocator N L m p = bind_global_buffers_to_allocator (global_new_allocator N p m) L ∧
    (new_allocator N L m p).free_list_start = N - 1 ∧
    (new_allocator N L m p).free_list_overflow_count = 0 ∧
    (new_allocator N L m p).freelist.length = N ∧
    (new_allocator N L m p).freelist.getD (N - 1) emptyCell = ⟨0, L, L⟩ ∧
    ∀ i, i < N - 1 → (new_allocator N L m p).freelist.getD i emptyCell = emptyCell := by
  have hkey := new_allocator_eq N L m p hN hL
  refine ⟨rfl, rfl, ?_, ?_, ?_, ?_, ?_⟩
  · rw [hkey]
  · rw [hkey]
  · rw [hkey]
    simp only [List.length_append, List.length_replicate, List.length_cons,
      List.length_nil]
    omega
  · rw [hkey]
    have := getD_append_length (List.replicate (N - 1) emptyCell) (⟨0, L, L⟩ : Cell) emptyCell
    simpa using this
  · intro i hi
    rw [hkey]
    show (List.replicate (N - 1) emptyCell ++ [(⟨0, L, L⟩ : Cell)]).getD i emptyCell = emptyCell
    rw [getD_append_lt _ _ _ _ (by simpa using hi)]
    exact getD_replicate_lt (N - 1) i emptyCell emptyCell hi

/-- C1 witness: the post-state convergence at capacity 4 and a Region of
65536 bytes. -/
theorem construction_postcondition_converges_witness :
    0 < 4 ∧ 0 < 65536 ∧
    (new_allocator 4 65536 [] Policy.uninitialized =
        bind_memory_buffer_to_allocator
          (heap_new_allocator 4 Policy.uninitialized []) 65536 ∧
      new_allocator 4 65536 [] Policy.uninitialized =
        bind_global_buffers_to_allocator
          (global_new_allocator 4 Policy.uninitialized []) 65536 ∧
      (new_allocator 4 65536 [] Policy.uninitialized).free_list_start = 4 - 1 ∧
      (new_allocator 4 65536 [] Policy.uninitialized).free_list_overflow_count = 0 ∧
      (new_allocator 4 65536 [] Policy.uninitialized).freelist.length = 4 ∧
      (new_allocator 4 65536 [] Policy.uninitialized).freelist.getD (4 - 1) emptyCell =
        ⟨0, 65536, 65536⟩ ∧
      ∀ i, i < 4 - 1 →
        (new_allocator 4 65536 [] Policy.uninitialized).freelist.getD i emptyCell =
          emptyCell) :=
  ⟨by decide, by decide,
    construction_postcondition_converges 4 65536 [] Policy.uninitialized
      (by decide) (by decide)⟩

theorem replicate_double {α : Type} (k : Nat) (e : α) :
    List.replicate k e ++ List.replicate k e = List.replicate (2 * k) e := by
  rw [← List.replicate_add, ← two_mul]

set_option maxHeartbeats 2000000 in
set_option maxRecDepth 8000 in
theorem static_array_eq_1024 {α : Type} (e : α) :
    static_array e 1024 = some (List.replicate 512 e) := by
  show staticArrayAccum 16 1024 [e] [] = some (List.replicate 512 e)
  rw [show ([e] : List α) = List.replicate 1 e from rfl]
  simp [staticArrayAccum, ← List.replicate_add]

set_option maxHeartbeats 2000000 in
set_option maxRecDepth 8000 in
theorem static_array_eq_2048 {α : Type} (e : α) :
    static_array e 2048 = some (List.replicate 1024 e) := by
  show staticArrayAccum 16 2048 [e] [] = some (List.replicate 1024 e)
  rw [show ([e] : List α) = List.replicate 1 e from rfl]
  simp [staticArrayAccum, ← List.replicate_add]

set_option maxHeartbeats 2000000 in
set_option maxRecDepth 8000 in
theorem static_array_eq_4096 {α : Type} (e : α) :
    static_array e 4096 = some (List.replicate 2048 e) := by
  show staticArrayAccum 16 4096 [e] [] = some (List.replicate 2048 e)
  rw [show ([e] : List α) = List.replicate 1 e from rfl]
  simp [staticArrayAccum, ← List.replicate_add]

/-- C5 (code_bug evidence): the `static_array!` rules of `src/init.rs`
produce exactly `N` copies of the initializer only for the powers of two
up to 256.  There is no rule for 512, so `static_array![E; 512]` is an
expansion failure although 512 is a power of two within the claimed range;
and because the 1024 rule recurses on 256 after a single doubling, the
counts 1024, 2048 and 4096 each produce only half the requested number of
copies — contradicting the claim (and the repository's own
`CallocAllocatedFreelist4096`, whose 4096-element array type cannot be
initialized by a 2048-element expansion). -/
theorem static_array_miscounts_large_powers :
    (∀ n ∈ [1, 2, 4, 8, 16, 32, 64, 128, 256],
        static_array (7 : Nat) n = some (List.replicate n 7)) ∧
    static_array (7 : Nat) 512 = none ∧
    static_array (7 : Nat) 1024 = some (List.replicate 512 7) ∧
    static_array (7 : Nat) 2048 = some (List.replicate 1024 7) ∧
    static_array (7 : Nat) 4096 = some (List.replicate 2048 7) ∧
    some (List.replicate 512 (7 : Nat)) ≠ some (List.replicate 1024 (7 : Nat)) := by
  refine ⟨?_, by decide, static_array_eq_1024 7, static_array_eq_2048 7,
    static_array_eq_4096 7, ?_⟩
  · set_option maxRecDepth 4000 in decide
  · intro h
    have h2 : List.replicate 512 (7 : Nat) = List.replicate 1024 7 := Option.some.inj h
    have h3 := congrArg List.length h2
    rw [List.length_replicate, List.length_replicate] at h3
    omega

/-- C10 counterexample: immediately after the bounded-stack / calloc
construction entry point (`@new_method new_allocator` with capacity 4 and
a 65536-element Region) the slot at index 3 holds the whole Region, a
slice of nonzero length — not the zero-length slice the claim asserts for
every slot of every strategy. -/
theorem freelist_not_all_empty_after_construction :
    ((new_allocator 4 65536 [] Policy.uninitialized).freelist.getD 3 emptyCell).len ≠ 0 := by
  decide

/-- C10 (amended): every slot of the free-list holds the zero-length
empty slice at freelist materialization — `make_freelist` for the heap
strategy, the heap and global constructors before any Region is bound,
and the `static_array!` expansion used for the global statics (capacity
16, as declared in the sources) — and the allocator's distinguished nop
cell is likewise the empty slice.  After the registering free performed
inside the stack/calloc constructor, every slot except slot `N - 1` is
still empty while slot `N - 1` holds the whole Region; an occupied slot
is distinguishable from an empty one exactly by its nonzero length. -/
theorem freelist_empty_at_materialization (N L : Nat) (m : List Nat) (p : Policy)
    (hN : 0 < N) (hL : 0 < L) :
    make_freelist N = List.replicate N emptyCell ∧
    (heap_new_allocator N p m).freelist = List.replicate N emptyCell ∧
    (global_new_allocator N p m).freelist = List.replicate N emptyCell ∧
    static_array emptyCell 16 = some (List.replicate 16 emptyCell) ∧
    (heap_new_allocator N p m).nop = emptyCell ∧
    (new_allocator N L m p).nop = emptyCell ∧
    (∀ i, i < N - 1 → (new_allocator N L m p).freelist.getD i emptyCell = emptyCell) ∧
    ((new_allocator N L m p).freelist.getD (N - 1) emptyCell).len = L := by
  have hkey := new_allocator_eq N L m p hN hL
  refine ⟨rfl, rfl, rfl, by decide, rfl, ?_, ?_, ?_⟩
  · rw [hkey]
  · intro i hi
    rw [hkey]
    show (List.replicate (N - 1) emptyCell ++ [(⟨0, L, L⟩ : Cell)]).getD i emptyCell = emptyCell
    rw [getD_append_lt _ _ _ _ (by simpa using hi)]
    exact getD_replicate_lt (N - 1) i emptyCell emptyCell hi
  · rw [hkey]
    show ((List.replicate (N - 1) emptyCell ++ [(⟨0, L, L⟩ : Cell)]).getD (N - 1) emptyCell).len = L
    have := getD_append_length (List.replicate (N - 1) emptyCell) (⟨0, L, L⟩ : Cell) emptyCell
    rw [show (List.replicate (N - 1) emptyCell).length = N - 1 from by simp] at this
    rw [this]

/-- C10 witness: the amended slot-emptiness facts at capacity 4 and Region
length 65536. -/
theorem freelist_empty_at_materialization_witness :
    0 < 4 ∧ 0 < 65536 ∧
    (make_freelist 4 = List.replicate 4 emptyCell ∧
      (heap_new_allocator 4 Policy.bzero []).freelist = List.replicate 4 emptyCell ∧
      (global_new_allocator 4 Policy.bzero []).freelist = List.replicate 4 emptyCell ∧
      static_array emptyCell 16 = some (List.replicate 16 emptyCell) ∧
      (heap_new_allocator 4 Policy.bzero []).nop = emptyCell ∧
      (new_allocator 4 65536 [] Policy.bzero).nop = emptyCell ∧
      (∀ i, i < 4 - 1 →
        (new_allocator 4 65536 [] Policy.bzero).freelist.getD i emptyCell = emptyCell) ∧
      ((new_allocator 4 65536 [] Policy.bzero).freelist.getD (4 - 1) emptyCell).len =
        65536) :=
  ⟨by decide, by decide,
    freelist_empty_at_materialization 4 65536 [] Policy.bzero (by decide) (by decide)⟩

/-- C2 counterexample: with a single occupied slot of capacity 100 and a
request of 4, a sufficient slot exists, yet allocate does not remove the
slot from the free-list: the request is carved from the slot's front and
the 96-element remainder stays occupied in the same slot, so "removes
from the free-list the smallest sufficient previously-freed slot" fails
at this input (the returned cell is nevertheless truncated to length 4). -/
theorem reuse_slot_not_removed_on_split :
    4 ≤ (((⟨emptyCell, [⟨0, 100, 100⟩], 0, 0, Policy.uninitialized, []⟩ :
        StackAllocator).freelist.drop 0).getD 0 emptyCell).cap ∧
    (alloc_cell ⟨emptyCell, [⟨0, 100, 100⟩], 0, 0, Policy.uninitialized, []⟩ 4).1 =
      ⟨0, 4, 4⟩ ∧
    ((alloc_cell ⟨emptyCell, [⟨0, 100, 100⟩], 0, 0, Policy.uninitialized, []⟩ 4).2).freelist =
      [⟨4, 96, 96⟩] ∧
    ((alloc_cell ⟨emptyCell, [⟨0, 100, 100⟩], 0, 0,
        Policy.uninitialized, []⟩ 4).2).freelist.getD 0 emptyCell ≠ emptyCell ∧
    ((alloc_cell ⟨emptyCell, [⟨0, 100, 100⟩], 0, 0,
        Policy.uninitialized, []⟩ 4).2).free_list_start = 0 := by
  decide

/-- C2 (amended): when some occupied slot has capacity at least the
(positive) request `n`, allocate selects the smallest sufficient slot
(earliest on ties) and returns a cell carrying its offset, truncated in
exposed length to exactly `n`.  The selected slot is removed from the
free-list (with the occupied tail compacted and the cursor advanced) only
when it fits exactly or its excess is small (capacity below `n + 32`) and
it is not the last slot; otherwise exactly `n` elements are carved from
its front and the remainder stays occupied in the same slot. -/
theorem reuse_smallest_sufficient_amended (s : StackAllocator) (n j c : Nat)
    (hn : 0 < n)
    (hfind : findBestAux (s.freelist.drop s.free_list_start) n = some (j, c)) :
    n ≤ c ∧
    (∀ d ∈ s.freelist.drop s.free_list_start, n ≤ d.cap → c ≤ d.cap) ∧
    ((alloc_cell s n).1).len = n ∧
    ((alloc_cell s n).1).off = (s.freelist.getD (s.free_list_start + j) emptyCell).off ∧
    (c = n ∨ (c < n + 32 ∧ s.free_list_start + j + 1 ≠ s.freelist.length) →
      ((alloc_cell s n).2).freelist =
        (s.freelist.set (s.free_list_start + j)
          (s.freelist.getD s.free_list_start emptyCell)).set s.free_list_start emptyCell ∧
      ((alloc_cell s n).2).free_list_start = s.free_list_start + 1 ∧
      ((alloc_cell s n).1).cap = c) ∧
    (¬ (c = n ∨ (c < n + 32 ∧ s.free_list_start + j + 1 ≠ s.freelist.length)) →
      ((alloc_cell s n).2).freelist =
        s.freelist.set (s.free_list_start + j)
          ⟨(s.freelist.getD (s.free_list_start + j) emptyCell).off + n, c - n, c - n⟩ ∧
      ((alloc_cell s n).2).free_list_start = s.free_list_start) := by
  have hn' : n ≠ 0 := by omega
  obtain ⟨hjlen, hcap, hnc, hmin⟩ := findBestAux_some_spec _ _ _ _ hfind
  have hslot : (s.freelist.getD (s.free_list_start + j) emptyCell).cap = c := by
    rw [← getD_drop]; exact hcap
  refine ⟨hnc, hmin, ?_, ?_, ?_, ?_⟩
  · by_cases hc : c = n ∨ (c < n + 32 ∧ s.free_list_start + j + 1 ≠ s.freelist.length)
    · rw [alloc_cell_whole s n j c hn' hfind hc]
    · rw [alloc_cell_split s n j c hn' hfind hc]
  · by_cases hc : c = n ∨ (c < n + 32 ∧ s.free_list_start + j + 1 ≠ s.freelist.length)
    · rw [alloc_cell_whole s n j c hn' hfind hc]
    · rw [alloc_cell_split s n j c hn' hfind hc]
  · intro hc
    rw [alloc_cell_whole s n j c hn' hfind hc]
    exact ⟨by rw [applyPolicy_freelist], by rw [applyPolicy_start], hslot⟩
  · intro hc
    rw [alloc_cell_split s n j c hn' hfind hc]
    constructor
    · rw [applyPolicy_freelist, hslot]
    · rw [applyPolicy_start]

/-- C2 witness: the amended reuse behavior at the counterexample state. -/
theorem reuse_smallest_sufficient_amended_witness :
    0 < 4 ∧
    findBestAux (((⟨emptyCell, [⟨0, 100, 100⟩], 0, 0, Policy.uninitialized, []⟩ :
        StackAllocator).freelist).drop 0) 4 = some (0, 100) ∧
    ((alloc_cell (⟨emptyCell, [⟨0, 100, 100⟩], 0, 0, Policy.uninitialized, []⟩ :
        StackAllocator) 4).1).len = 4 :=
  ⟨by decide, by decide,
    (reuse_smallest_sufficient_amended
      ⟨emptyCell, [⟨0, 100, 100⟩], 0, 0, Policy.uninitialized, []⟩ 4 0 100
      (by decide) (by decide)).2.2.1⟩

/-- C3: when an allocation of positive size `n` is served from an occupied
slot (reuse mapped to that slot's storage, `n` not exceeding its
capacity), the returned cell starts at the slot's offset, and position
`t < n` of the returned cell reads the byte already present in the Region
at that position — i.e. a value previously written through a cell that
was freed back into this slot is exposed verbatim — under the
leave-uninitialized policy, and reads zero under the pre-zero policy.
The allocator core is shared by all four backing-store strategies (their
constructions converge on identical core states, claim C1), so this holds
identically across the strategies. -/
theorem policy_decides_reused_content (s : StackAllocator) (n j c t : Nat)
    (hn : 0 < n) (ht : t < n)
    (hfind : findBestAux (s.freelist.drop s.free_list_start) n = some (j, c)) :
    ((alloc_cell s n).1).off =
      (s.freelist.getD (s.free_list_start + j) emptyCell).off ∧
    ((alloc_cell s n).1).len = n ∧
    (s.init_policy = Policy.uninitialized →
      read_cell (alloc_cell s n).2 (alloc_cell s n).1 t =
        s.mem.getD ((s.freelist.getD (s.free_list_start + j) emptyCell).off + t) 0) ∧
    (s.init_policy = Policy.bzero →
      read_cell (alloc_cell s n).2 (alloc_cell s n).1 t = 0) := by
  have hn' : n ≠ 0 := by omega
  by_cases hc : c = n ∨ (c < n + 32 ∧ s.free_list_start + j + 1 ≠ s.freelist.length)
  · rw [alloc_cell_whole s n j c hn' hfind hc]
    refine ⟨rfl, rfl, ?_, ?_⟩
    · intro hp
      simp only [read_cell, applyPolicy, hp]
    · intro hp
      simp only [read_cell, applyPolicy, hp]
      exact zeroRange_getD_inside n s.mem
        (s.freelist.getD (s.free_list_start + j) emptyCell).off t ht
  · rw [alloc_cell_split s n j c hn' hfind hc]
    refine ⟨rfl, rfl, ?_, ?_⟩
    · intro hp
      simp only [read_cell, applyPolicy, hp]
    · intro hp
      simp only [read_cell, applyPolicy, hp]
      exact zeroRange_getD_inside n s.mem
        (s.freelist.getD (s.free_list_start + j) emptyCell).off t ht

/-- C3 witness: a slot at offset 5 of capacity 4 whose storage holds the
previously written byte 6; under the pre-zero policy the reallocating
caller reads 0 there. -/
theorem policy_decides_reused_content_witness :
    0 < 4 ∧ 0 < 4 ∧
    findBestAux (((⟨emptyCell, [⟨5, 4, 4⟩], 0, 0, Policy.bzero,
        [0, 0, 0, 0, 0, 6, 0, 0, 0]⟩ : StackAllocator).freelist).drop 0) 4 =
      some (0, 4) ∧
    ((⟨emptyCell, [⟨5, 4, 4⟩], 0, 0, Policy.bzero,
        [0, 0, 0, 0, 0, 6, 0, 0, 0]⟩ : StackAllocator).mem.getD 5 0 = 6) ∧
    read_cell
      (alloc_cell (⟨emptyCell, [⟨5, 4, 4⟩], 0, 0, Policy.bzero,
        [0, 0, 0, 0, 0, 6, 0, 0, 0]⟩ : StackAllocator) 4).2
      (alloc_cell (⟨emptyCell, [⟨5, 4, 4⟩], 0, 0, Policy.bzero,
        [0, 0, 0, 0, 0, 6, 0, 0, 0]⟩ : StackAllocator) 4).1 0 = 0 :=
  ⟨by decide, by decide, by decide, by decide,
    (policy_decides_reused_content
      ⟨emptyCell, [⟨5, 4, 4⟩], 0, 0, Policy.bzero, [0, 0, 0, 0, 0, 6, 0, 0, 0]⟩
      4 0 4 0 (by decide) (by decide) (by decide)).2.2.2 rfl⟩

/-- C4: allocation is total and never signals an error.  When the
(positive) request exceeds the capacity of every occupied slot — the
free-list cannot serve it and the Region remainder, which lives in the
occupied tail, is insufficient — `alloc_cell` increments the overflow
counter, leaves the free-list untouched, and still returns the degraded
`nop` cell, which is zero-length (hence never longer than the request)
for every allocator whose `nop` is the empty slice. -/
theorem alloc_overflow_total (s : StackAllocator) (n : Nat) (hn : 0 < n)
    (hno : ∀ d ∈ s.freelist.drop s.free_list_start, d.cap < n) :
    alloc_cell s n =
      (s.nop, { s with free_list_overflow_count := s.free_list_overflow_count + 1 }) ∧
    ((alloc_cell s n).2).free_list_overflow_count = s.free_list_overflow_count + 1 ∧
    ((alloc_cell s n).2).freelist = s.freelist ∧
    (s.nop.len = 0 → ((alloc_cell s n).1).len ≤ n) := by
  have hf := findBestAux_mem_none _ n hno
  have heq := alloc_cell_fail s n (by omega) hf
  exact ⟨heq, by rw [heq], by rw [heq], fun h => alloc_cell_fst_len_le s n h⟩

/-- C4 witness: a request of 5 against a single occupied slot of capacity
2 is counted and served with the degraded zero-length cell. -/
theorem alloc_overflow_total_witness :
    0 < 5 ∧
    (∀ d ∈ ((⟨emptyCell, [⟨0, 2, 2⟩], 0, 0, Policy.uninitialized, []⟩ :
        StackAllocator).freelist).drop 0, d.cap < 5) ∧
    ((alloc_cell (⟨emptyCell, [⟨0, 2, 2⟩], 0, 0, Policy.uninitialized, []⟩ :
        StackAllocator) 5).2).free_list_overflow_count = 0 + 1 :=
  ⟨by decide, by decide,
    (alloc_overflow_total
      ⟨emptyCell, [⟨0, 2, 2⟩], 0, 0, Policy.uninitialized, []⟩ 5
      (by decide) (by decide)).2.1⟩

/-- C6 counterexample: under the pre-zero policy, a slot whose storage was
previously written with 6 is reallocated and the caller reads 0 — the
memory observed through the fresh cell differs from the pre-allocation
contents, so the policy acts again at allocation time and governs memory
that was previously written, contrary to the claim (this is exactly the
`stack_pool_test` oracle: `z[0] == 0` under `bzero` where
`uninitialized_stack_pool_test` asserts 6). -/
theorem bzero_clears_previously_written :
    ((⟨emptyCell, [⟨0, 4, 4⟩], 0, 0, Policy.bzero, [6, 0, 0, 0]⟩ :
        StackAllocator).mem.getD 0 0 = 6) ∧
    read_cell
      (alloc_cell (⟨emptyCell, [⟨0, 4, 4⟩], 0, 0, Policy.bzero, [6, 0, 0, 0]⟩ :
        StackAllocator) 4).2
      (alloc_cell (⟨emptyCell, [⟨0, 4, 4⟩], 0, 0, Policy.bzero, [6, 0, 0, 0]⟩ :
        StackAllocator) 4).1 0 = 0 ∧
    ((alloc_cell (⟨emptyCell, [⟨0, 4, 4⟩], 0, 0, Policy.bzero, [6, 0, 0, 0]⟩ :
        StackAllocator) 4).2).mem ≠
      (⟨emptyCell, [⟨0, 4, 4⟩], 0, 0, Policy.bzero, [6, 0, 0, 0]⟩ :
        StackAllocator).mem ∧
    (0 : Nat) ≠ 6 := by
  decide

/-- C6 (amended): every construction entry point takes the initialization
policy and stores it in the allocator; the policy is applied at each
allocation to the returned cell's exposed range — under pre-zero every
exposed position of a freshly returned cell reads zero, under
leave-uninitialized allocation leaves the Region bytes untouched — and a
cell's backing memory content is never cleared when the cell is freed. -/
theorem policy_applied_per_allocation :
    (∀ (s : StackAllocator) (c : Cell), (free_cell s c).mem = s.mem) ∧
    (∀ (N L : Nat) (m : List Nat) (p : Policy),
      (new_allocator N L m p).init_policy = p ∧ (new_allocator N L m p).mem = m ∧
      (heap_new_allocator N p m).init_policy = p ∧
      (global_new_allocator N p m).init_policy = p) ∧
    (∀ (s : StackAllocator) (n : Nat), s.init_policy = Policy.uninitialized →
      ((alloc_cell s n).2).mem = s.mem) ∧
    (∀ (s : StackAllocator) (n t : Nat), s.nop = emptyCell →
      s.init_policy = Policy.bzero → t < ((alloc_cell s n).1).len →
      ((alloc_cell s n).2).mem.getD (((alloc_cell s n).1).off + t) 0 = 0) := by
  refine ⟨free_cell_mem, ?_, ?_, ?_⟩
  · intro N L m p
    exact ⟨free_cell_policy _ _, free_cell_mem _ _, rfl, rfl⟩
  · intro s n hp
    by_cases hn : n = 0
    · subst hn; rw [alloc_cell_zero_req]
    · rcases hf : findBestAux (s.freelist.drop s.free_list_start) n with _ | ⟨j, c⟩
      · rw [alloc_cell_fail s n hn hf]
      · by_cases hc : c = n ∨ (c < n + 32 ∧ s.free_list_start + j + 1 ≠ s.freelist.length)
        · rw [alloc_cell_whole s n j c hn hf hc]
          simp only [applyPolicy, hp]
        · rw [alloc_cell_split s n j c hn hf hc]
          simp only [applyPolicy, hp]
  · intro s n t hnop hp ht
    by_cases hn : n = 0
    · subst hn
      rw [alloc_cell_zero_req] at ht
      rw [hnop] at ht
      simp [emptyCell] at ht
    · rcases hf : findBestAux (s.freelist.drop s.free_list_start) n with _ | ⟨j, c⟩
      · rw [alloc_cell_fail s n hn hf] at ht
        rw [show ((s.nop,
            { s with free_list_overflow_count := s.free_list_overflow_count + 1 }) :
            Cell × StackAllocator).1 = s.nop from rfl, hnop] at ht
        simp [emptyCell] at ht
      · by_cases hc : c = n ∨ (c < n + 32 ∧ s.free_list_start + j + 1 ≠ s.freelist.length)
        · rw [alloc_cell_whole s n j c hn hf hc] at ht ⊢
          simp only [] at ht
          simp only [applyPolicy, hp]
          exact zeroRange_getD_inside n s.mem
            (s.freelist.getD (s.free_list_start + j) emptyCell).off t ht
        · rw [alloc_cell_split s n j c hn hf hc] at ht ⊢
          simp only [] at ht
          simp only [applyPolicy, hp]
          exact zeroRange_getD_inside n s.mem
            (s.freelist.getD (s.free_list_start + j) emptyCell).off t ht

/-- C6 witness: the per-allocation pre-zeroing at the counterexample
state, and memory preservation on free. -/
theorem policy_applied_per_allocation_witness :
    ((⟨emptyCell, [⟨0, 4, 4⟩], 0, 0, Policy.bzero, [6, 0, 0, 0]⟩ :
        StackAllocator).nop = emptyCell) ∧
    ((⟨emptyCell, [⟨0, 4, 4⟩], 0, 0, Policy.bzero, [6, 0, 0, 0]⟩ :
        StackAllocator).init_policy = Policy.bzero) ∧
    0 < ((alloc_cell (⟨emptyCell, [⟨0, 4, 4⟩], 0, 0, Policy.bzero, [6, 0, 0, 0]⟩ :
        StackAllocator) 4).1).len ∧
    ((alloc_cell (⟨emptyCell, [⟨0, 4, 4⟩], 0, 0, Policy.bzero, [6, 0, 0, 0]⟩ :
        StackAllocator) 4).2).mem.getD
      (((alloc_cell (⟨emptyCell, [⟨0, 4, 4⟩], 0, 0, Policy.bzero, [6, 0, 0, 0]⟩ :
        StackAllocator) 4).1).off + 0) 0 = 0 :=
  ⟨rfl, rfl, by decide,
    policy_applied_per_allocation.2.2.2
      ⟨emptyCell, [⟨0, 4, 4⟩], 0, 0, Policy.bzero, [6, 0, 0, 0]⟩ 4 0
      rfl rfl (by decide)⟩

/-- C7: a zero-size allocation against any constructed allocator succeeds
unconditionally, returning the valid zero-length nop cell and leaving the
allocator state — bump cursor included — completely unchanged; hence any
number of consecutive zero-size allocations never decrements the cursor
(zero decrements, which is at most once) and consumes no Region capacity:
a subsequent allocation of any size is answered exactly as it would have
been without the zero-size calls. -/
theorem alloc_zero_is_noop (N L : Nat) (m : List Nat) (p : Policy) (k n : Nat) :
    alloc_cell (new_allocator N L m p) 0 = (emptyCell, new_allocator N L m p) ∧
    ((alloc_cell (new_allocator N L m p) 0).1).len = 0 ∧
    (fun st => (alloc_cell st 0).2)^[k] (new_allocator N L m p) =
      new_allocator N L m p ∧
    alloc_cell ((fun st => (alloc_cell st 0).2)^[k] (new_allocator N L m p)) n =
      alloc_cell (new_allocator N L m p) n ∧
    ((fun st => (alloc_cell st 0).2)^[k] (new_allocator N L m p)).free_list_start =
      (new_allocator N L m p).free_list_start := by
  have hnop : (new_allocator N L m p).nop = emptyCell := free_cell_nop _ _
  have h0 : alloc_cell (new_allocator N L m p) 0 = (emptyCell, new_allocator N L m p) := by
    rw [alloc_cell_zero_req, hnop]
  have hit : (fun st => (alloc_cell st 0).2)^[k] (new_allocator N L m p) =
      new_allocator N L m p := by
    induction k with
    | zero => rfl
    | succ k ih =>
      rw [Function.iterate_succ_apply', ih]
      show (alloc_cell (new_allocator N L m p) 0).2 = new_allocator N L m p
      rw [alloc_cell_zero_req]
  exact ⟨h0, by rw [h0]; rfl, hit, by rw [hit], by rw [hit]⟩

/-- C8: freeing a nonzero-length cell while the free-list array is fully
occupied (cursor at zero, every slot of nonzero length) silently leaks the
memory: the free-list, cursor and Region contents are unchanged — no error
is signalled, only the overflow counter records the event — and every
subsequent allocation still returns a valid, possibly degraded cell whose
exposed length never exceeds the request. -/
theorem free_when_full_leaks_silently (s : StackAllocator) (cell : Cell)
    (hstart : s.free_list_start = 0)
    (hfull : ∀ d ∈ s.freelist, d.len ≠ 0)
    (hlen : cell.len ≠ 0) :
    (free_cell s cell).freelist = s.freelist ∧
    (free_cell s cell).free_list_start = s.free_list_start ∧
    (free_cell s cell).mem = s.mem ∧
    (free_cell s cell).free_list_overflow_count = s.free_list_overflow_count + 1 ∧
    (s.nop.len = 0 → ∀ n, ((alloc_cell (free_cell s cell) n).1).len ≤ n) := by
  have hempty := findEmpty_mem_none s.freelist hfull
  have heq := free_cell_leak s cell hlen hstart hempty
  refine ⟨by rw [heq], by rw [heq, hstart], by rw [heq], by rw [heq], ?_⟩
  intro hnop n
  apply alloc_cell_fst_len_le
  rw [heq]
  exact hnop

/-- C8 witness: the silent leak at a fully occupied single-slot free-list. -/
theorem free_when_full_leaks_silently_witness :
    ((⟨emptyCell, [⟨0, 5, 5⟩], 0, 0, Policy.uninitialized, []⟩ :
        StackAllocator).free_list_start = 0) ∧
    (∀ d ∈ (⟨emptyCell, [⟨0, 5, 5⟩], 0, 0, Policy.uninitialized, []⟩ :
        StackAllocator).freelist, d.len ≠ 0) ∧
    ((⟨7, 2, 2⟩ : Cell).len ≠ 0) ∧
    (free_cell (⟨emptyCell, [⟨0, 5, 5⟩], 0, 0, Policy.uninitialized, []⟩ :
        StackAllocator) ⟨7, 2, 2⟩).free_list_overflow_count = 0 + 1 :=
  ⟨rfl, by decide, by decide,
    (free_when_full_leaks_silently
      ⟨emptyCell, [⟨0, 5, 5⟩], 0, 0, Policy.uninitialized, []⟩ ⟨7, 2, 2⟩
      rfl (by decide) (by decide)).2.2.2.1⟩

/-- C9 counterexample: with the supported free-list capacity 4 and a
one-element Region, a workload of a single (hence fewer than 4 live
cells) five-element request drives the overflow counter nonzero, because
no available capacity can serve it — refuting "any workload that keeps
fewer than N cells live at once never makes the overflow counter
nonzero". -/
theorem overflow_without_many_live_cells :
    ((alloc_cell (new_allocator 4 1 [] Policy.uninitialized) 5).2
      ).free_list_overflow_count ≠ 0 := by
  decide

theorem drop_replicate_append {α : Type} (K : Nat) (a : α) (t : List α) :
    (List.replicate K a ++ t).drop K = t := by
  simpa using List.drop_left (List.replicate K a) t

theorem alloc_step_findBest (K o cap ov : Nat) (m : List Nat) (sz : Nat)
    (hle : sz ≤ cap) :
    findBestAux (((⟨emptyCell, List.replicate K emptyCell ++ [⟨o, cap, cap⟩], K, ov,
        Policy.uninitialized, m⟩ : StackAllocator).freelist).drop
        ((⟨emptyCell, List.replicate K emptyCell ++ [⟨o, cap, cap⟩], K, ov,
        Policy.uninitialized, m⟩ : StackAllocator).free_list_start)) sz = some (0, cap) := by
  show findBestAux ((List.replicate K emptyCell ++ ([⟨o, cap, cap⟩] : List Cell)).drop K) sz =
    some (0, cap)
  rw [drop_replicate_append]
  show findBestAux ([⟨o, cap, cap⟩] : List Cell) sz = some (0, cap)
  simp only [findBestAux]
  rw [if_pos (show sz ≤ cap from hle)]

theorem alloc_step_split (K o cap ov : Nat) (m : List Nat) (sz : Nat)
    (hsz : 0 < sz) (hle : sz ≤ cap) (hne : cap ≠ sz) :
    alloc_cell ⟨emptyCell, List.replicate K emptyCell ++ [⟨o, cap, cap⟩], K, ov,
        Policy.uninitialized, m⟩ sz =
      (⟨o, sz, sz⟩,
        ⟨emptyCell, List.replicate K emptyCell ++ [⟨o + sz, cap - sz, cap - sz⟩], K, ov,
          Policy.uninitialized, m⟩) := by
  have hfind := alloc_step_findBest K o cap ov m sz hle
  have hget : ((List.replicate K emptyCell ++ [⟨o, cap, cap⟩] : List Cell)).getD (K + 0)
      emptyCell = ⟨o, cap, cap⟩ := by
    simpa using getD_append_length (List.replicate K emptyCell) (⟨o, cap, cap⟩ : Cell)
      emptyCell
  have hc : ¬ (cap = sz ∨ (cap < sz + 32 ∧ K + 0 + 1 ≠
      ((⟨emptyCell, List.replicate K emptyCell ++ [⟨o, cap, cap⟩], K, ov,
        Policy.uninitialized, m⟩ : StackAllocator).freelist).length)) := by
    rintro (h | ⟨_, h2⟩)
    · exact hne h
    · exact h2 (by simp)
  rw [alloc_cell_split _ sz 0 cap (by omega) hfind hc]
  show (_, applyPolicy _ _) = _
  simp only [applyPolicy]
  rw [show ((⟨emptyCell, List.replicate K emptyCell ++ [⟨o, cap, cap⟩], K, ov,
      Policy.uninitialized, m⟩ : StackAllocator).freelist).getD
      ((⟨emptyCell, List.replicate K emptyCell ++ [⟨o, cap, cap⟩], K, ov,
      Policy.uninitialized, m⟩ : StackAllocator).free_list_start + 0) emptyCell =
      ⟨o, cap, cap⟩ from hget]
  rw [show ((⟨emptyCell, List.replicate K emptyCell ++ [⟨o, cap, cap⟩], K, ov,
      Policy.uninitialized, m⟩ : StackAllocator).freelist).set
      ((⟨emptyCell, List.replicate K emptyCell ++ [⟨o, cap, cap⟩], K, ov,
      Policy.uninitialized, m⟩ : StackAllocator).free_list_start + 0)
      ⟨o + sz, cap - sz, cap - sz⟩ =
      List.replicate K emptyCell ++ [⟨o + sz, cap - sz, cap - sz⟩] from by
    simpa using set_append_length (List.replicate K emptyCell) (⟨o, cap, cap⟩ : Cell)
      ⟨o + sz, cap - sz, cap - sz⟩]

theorem alloc_step_exact (K o ov : Nat) (m : List Nat) (sz : Nat) (hsz : 0 < sz) :
    alloc_cell ⟨emptyCell, List.replicate K emptyCell ++ [⟨o, sz, sz⟩], K, ov,
        Policy.uninitialized, m⟩ sz =
      (⟨o, sz, sz⟩, ⟨emptyCell, List.replicate (K + 1) emptyCell, K + 1, ov,
        Policy.uninitialized, m⟩) := by
  have hfind := alloc_step_findBest K o sz ov m sz (le_refl sz)
  have hget0 : ((List.replicate K emptyCell ++ [⟨o, sz, sz⟩] : List Cell)).getD (K + 0)
      emptyCell = ⟨o, sz, sz⟩ := by
    simpa using getD_append_length (List.replicate K emptyCell) (⟨o, sz, sz⟩ : Cell)
      emptyCell
  have hget : ((List.replicate K emptyCell ++ [⟨o, sz, sz⟩] : List Cell)).getD K
      emptyCell = ⟨o, sz, sz⟩ := by
    simpa using getD_append_length (List.replicate K emptyCell) (⟨o, sz, sz⟩ : Cell)
      emptyCell
  rw [alloc_cell_whole _ sz 0 sz (by omega) hfind (Or.inl rfl)]
  simp only [applyPolicy]
  rw [show ((⟨emptyCell, List.replicate K emptyCell ++ [⟨o, sz, sz⟩], K, ov,
      Policy.uninitialized, m⟩ : StackAllocator).freelist).getD
      ((⟨emptyCell, List.replicate K emptyCell ++ [⟨o, sz, sz⟩], K, ov,
      Policy.uninitialized, m⟩ : StackAllocator).free_list_start + 0) emptyCell =
      ⟨o, sz, sz⟩ from hget0]
  rw [show ((⟨emptyCell, List.replicate K emptyCell ++ [⟨o, sz, sz⟩], K, ov,
      Policy.uninitialized, m⟩ : StackAllocator).freelist).getD
      ((⟨emptyCell, List.replicate K emptyCell ++ [⟨o, sz, sz⟩], K, ov,
      Policy.uninitialized, m⟩ : StackAllocator).free_list_start) emptyCell =
      ⟨o, sz, sz⟩ from hget]
  rw [show ((⟨emptyCell, List.replicate K emptyCell ++ [⟨o, sz, sz⟩], K, ov,
      Policy.uninitialized, m⟩ : StackAllocator).freelist).set
      ((⟨emptyCell, List.replicate K emptyCell ++ [⟨o, sz, sz⟩], K, ov,
      Policy.uninitialized, m⟩ : StackAllocator).free_list_start + 0)
      (⟨o, sz, sz⟩ : Cell) = List.replicate K emptyCell ++ [⟨o, sz, sz⟩] from by
    simpa using set_append_length (List.replicate K emptyCell) (⟨o, sz, sz⟩ : Cell)
      ⟨o, sz, sz⟩]
  rw [show (List.replicate K emptyCell ++ [(⟨o, sz, sz⟩ : Cell)]).set
      ((⟨emptyCell, List.replicate K emptyCell ++ [⟨o, sz, sz⟩], K, ov,
      Policy.uninitialized, m⟩ : StackAllocator).free_list_start) emptyCell =
      List.replicate (K + 1) emptyCell from by
    rw [show ((⟨emptyCell, List.replicate K emptyCell ++ [⟨o, sz, sz⟩], K, ov,
        Policy.uninitialized, m⟩ : StackAllocator).free_list_start) = K from rfl]
    rw [show (List.replicate K emptyCell ++ [(⟨o, sz, sz⟩ : Cell)]).set K emptyCell =
        List.replicate K emptyCell ++ [emptyCell] from by
      simpa using set_append_length (List.replicate K emptyCell) (⟨o, sz, sz⟩ : Cell)
        emptyCell]
    exact (List.replicate_succ' K emptyCell).symm]

theorem alloc_times_zero (sz : Nat) (s : StackAllocator) :
    alloc_times sz 0 s = (s, []) := rfl

theorem alloc_times_succ (sz k : Nat) (s : StackAllocator) :
    alloc_times sz (k + 1) s =
      ((alloc_times sz k (alloc_cell s sz).2).1,
        (alloc_cell s sz).1 :: (alloc_times sz k (alloc_cell s sz).2).2) := rfl

theorem alloc_times_chain (sz : Nat) (hsz : 0 < sz) :
    ∀ (k K o ov : Nat) (m : List Nat),
    (alloc_times sz (k + 1) ⟨emptyCell,
        List.replicate K emptyCell ++ [⟨o, (k + 1) * sz, (k + 1) * sz⟩], K, ov,
        Policy.uninitialized, m⟩).1 =
      ⟨emptyCell, List.replicate (K + 1) emptyCell, K + 1, ov,
        Policy.uninitialized, m⟩ ∧
    ((alloc_times sz (k + 1) ⟨emptyCell,
        List.replicate K emptyCell ++ [⟨o, (k + 1) * sz, (k + 1) * sz⟩], K, ov,
        Policy.uninitialized, m⟩).2).length = k + 1 ∧
    ∀ d ∈ (alloc_times sz (k + 1) ⟨emptyCell,
        List.replicate K emptyCell ++ [⟨o, (k + 1) * sz, (k + 1) * sz⟩], K, ov,
        Policy.uninitialized, m⟩).2, d.len = sz ∧ d.cap = sz := by
  intro k
  induction k with
  | zero =>
    intro K o ov m
    rw [show (0 + 1) * sz = sz from by ring]
    rw [alloc_times_succ, alloc_times_zero, alloc_step_exact K o ov m sz hsz]
    refine ⟨rfl, rfl, ?_⟩
    intro d hd
    rcases List.mem_cons.mp hd with rfl | hd'
    · exact ⟨rfl, rfl⟩
    · exact absurd hd' (List.not_mem_nil d)
  | succ k ih =>
    intro K o ov m
    have hle : sz ≤ (k + 1 + 1) * sz := by
      have h2 : 1 * sz ≤ (k + 1 + 1) * sz := Nat.mul_le_mul_right sz (by omega)
      simpa using h2
    have hne : (k + 1 + 1) * sz ≠ sz := by
      have h2 : 2 * sz ≤ (k + 1 + 1) * sz := Nat.mul_le_mul_right sz (by omega)
      omega
    have hstep := alloc_step_split K o ((k + 1 + 1) * sz) ov m sz hsz hle hne
    have hcap : (k + 1 + 1) * sz - sz = (k + 1) * sz := by
      have h3 : (k + 1 + 1) * sz = (k + 1) * sz + sz := Nat.succ_mul (k + 1) sz
      omega
    rw [hcap] at hstep
    rw [alloc_times_succ, hstep]
    obtain ⟨ih1, ih2, ih3⟩ := ih K (o + sz) ov m
    refine ⟨ih1, ?_, ?_⟩
    · show ((⟨o, sz, sz⟩ : Cell) :: (alloc_times sz (k + 1) ⟨emptyCell,
        List.replicate K emptyCell ++ [⟨o + sz, (k + 1) * sz, (k + 1) * sz⟩], K, ov,
        Policy.uninitialized, m⟩).2).length = k + 1 + 1
      rw [List.length_cons, ih2]
    · intro d hd
      rcases List.mem_cons.mp hd with rfl | hd'
      · exact ⟨rfl, rfl⟩
      · exact ih3 d hd'

theorem free_all_fills (sz : Nat) (hsz : 0 < sz) :
    ∀ (K : Nat) (cs : List Cell) (suffix : List Cell) (ov : Nat) (m : List Nat),
    cs.length = K + 1 →
    (∀ d ∈ cs, d.len = sz ∧ d.cap = sz) →
    (∀ d ∈ suffix, d.len ≠ 0) →
    (free_all cs ⟨emptyCell, List.replicate K emptyCell ++ suffix, K, ov,
        Policy.uninitialized, m⟩).free_list_overflow_count = ov + 1 := by
  intro K
  induction K with
  | zero =>
    intro cs suffix ov m hlen hcs hsuf
    cases cs with
    | nil => simp at hlen
    | cons c cs' =>
      cases cs' with
      | cons c2 cs2 => simp at hlen
      | nil =>
        have hclen : c.len ≠ 0 := by
          have := (hcs c (by simp)).1; omega
        have hempty : findEmpty ((⟨emptyCell,
            List.replicate 0 emptyCell ++ suffix, 0, ov,
            Policy.uninitialized, m⟩ : StackAllocator).freelist) = none := by
          show findEmpty (List.replicate 0 emptyCell ++ suffix) = none
          rw [show List.replicate 0 emptyCell ++ suffix = suffix from by simp]
          exact findEmpty_mem_none suffix hsuf
        show (free_cell ⟨emptyCell, List.replicate 0 emptyCell ++ suffix, 0, ov,
          Policy.uninitialized, m⟩ c).free_list_overflow_count = ov + 1
        rw [free_cell_leak _ _ hclen rfl hempty]
  | succ K ih =>
    intro cs suffix ov m hlen hcs hsuf
    cases cs with
    | nil => simp at hlen
    | cons c cs' =>
      have hc := hcs c (by simp)
      have hpush := free_cell_push
        ⟨emptyCell, List.replicate (K + 1) emptyCell ++ suffix, K + 1, ov,
          Policy.uninitialized, m⟩ c (by have := hc.1; omega) (Nat.succ_pos K)
      show (free_all cs' (free_cell ⟨emptyCell,
        List.replicate (K + 1) emptyCell ++ suffix, K + 1, ov,
        Policy.uninitialized, m⟩ c)).free_list_overflow_count = ov + 1
      rw [hpush]
      have hset : ((⟨emptyCell, List.replicate (K + 1) emptyCell ++ suffix, K + 1, ov,
          Policy.uninitialized, m⟩ : StackAllocator).freelist).set
          ((⟨emptyCell, List.replicate (K + 1) emptyCell ++ suffix, K + 1, ov,
          Policy.uninitialized, m⟩ : StackAllocator).free_list_start - 1)
          ⟨c.off, c.cap, c.cap⟩ =
          List.replicate K emptyCell ++ ⟨c.off, c.cap, c.cap⟩ :: suffix := by
        show (List.replicate (K + 1) emptyCell ++ suffix).set (K + 1 - 1)
          ⟨c.off, c.cap, c.cap⟩ = _
        rw [show K + 1 - 1 = K from rfl]
        exact set_replicate_cons K emptyCell ⟨c.off, c.cap, c.cap⟩ suffix
      rw [hset]
      exact ih cs' (⟨c.off, c.cap, c.cap⟩ :: suffix) ov m (by simpa using hlen)
        (fun d hd => hcs d (List.mem_cons_of_mem c hd))
        (by
          intro d hd
          rcases List.mem_cons.mp hd with rfl | hd'
          · show c.cap ≠ 0
            have := hc.2; omega
          · exact hsuf d hd')

/-- C9 (amended): for every free-list capacity `N ≥ 1` (in particular
every supported capacity) and every positive cell size, constructing an
allocator over a Region of exactly `N + 1` such cells, allocating `N + 1`
distinct same-size cells and then freeing all of them drives the overflow
counter to exactly 1 — the `N + 1`-st free finds all `N` slots occupied.
The converse direction of the original claim is false: a workload keeping
fewer than `N` cells live can also make the counter nonzero whenever a
request exceeds every available capacity (see the counterexample). -/
theorem overflow_after_n_plus_one_cycle (N sz : Nat) (m : List Nat)
    (hN : 1 ≤ N) (hsz : 0 < sz) :
    (free_all
      (alloc_times sz (N + 1)
        (new_allocator N ((N + 1) * sz) m Policy.uninitialized)).2
      (alloc_times sz (N + 1)
        (new_allocator N ((N + 1) * sz) m Policy.uninitialized)).1
      ).free_list_overflow_count = 1 := by
  have hL : 0 < (N + 1) * sz := Nat.mul_pos (by omega) hsz
  have hkey := new_allocator_eq N ((N + 1) * sz) m Policy.uninitialized (by omega) hL
  rw [hkey]
  obtain ⟨h1, h2, h3⟩ := alloc_times_chain sz hsz N (N - 1) 0 0 m
  rw [h1]
  have hN1 : N - 1 + 1 = N := by omega
  rw [hN1]
  rw [show (List.replicate N emptyCell : List Cell) =
    List.replicate N emptyCell ++ [] from (List.append_nil _).symm]
  exact free_all_fills sz hsz N _ [] 0 m h2 h3
    (fun d hd => absurd hd (List.not_mem_nil d))

/-- C9 witness: the full allocate-free cycle at capacity 1 and cell size
1 ends with overflow counter 1. -/
theorem overflow_after_n_plus_one_cycle_witness :
    1 ≤ 1 ∧ 0 < 1 ∧
    (free_all
      (alloc_times 1 (1 + 1)
        (new_allocator 1 ((1 + 1) * 1) [] Policy.uninitialized)).2
      (alloc_times 1 (1 + 1)
        (new_allocator 1 ((1 + 1) * 1) [] Policy.uninitialized)).1
      ).free_list_overflow_count = 1 :=
  ⟨by decide, by decide,
    overflow_after_n_plus_one_cycle 1 1 [] (by decide) (by decide)⟩

/-- The stack-pool scenario at reduced scale: same allocator capacity (4)
and the same sequence of allocations, writes and frees as
`oracle_scenario_stack`, with the Region scaled from 65536 to 300 bytes
and the first request from 9999 to 99.  Every allocation takes the same
branch of `alloc_cell` as at full scale (99 splits the 300-byte remainder
just as 9999 splits 65536; the 3-byte request takes the freed 4-byte slot
whole; the final requests carve fresh bytes), so the observable values
coincide; the reduction only keeps kernel evaluation of the Region list
feasible. -/
def oracle_scenario_stack_scaled (p : Policy) : List Nat :=
  let a0 := new_allocator 4 300 (List.replicate 300 0) p
  let q1 := alloc_cell a0 99
  let a2 := write_cell q1.2 q1.1 0 4
  let q2 := alloc_cell a2 4
  let a4 := write_cell q2.2 q2.1 0 5
  let a5 := free_cell a4 q2.1
  let q3 := alloc_cell a5 3
  let a7 := write_cell q3.2 q3.1 0 6
  let a8 := free_cell a7 q3.1
  let q4 := alloc_cell a8 4
  let a10 := write_cell q4.2 q4.1 1 8
  let q5 := alloc_cell a10 4
  let a12 := write_cell q5.2 q5.1 1 9
  [read_cell a12 q1.1 0, read_cell a12 q4.1 0, read_cell a12 q4.1 1,
   read_cell a12 q5.1 0, read_cell a12 q5.1 1, a12.free_list_overflow_count]

set_option maxRecDepth 2000 in
/-- Model validation against the `tests/lib.rs` oracle: the scenario of
`uninitialized_stack_pool_test` reads 4, 6, 8, 0, 9 (the freed 3-byte
cell's storage is reused and exposes the previously written 6), and under
`bzero` (`stack_pool_test`) the same reuse reads 0 instead of 6 —
matching every `assert_eq` of both tests, with no overflow recorded. -/
theorem oracle_stack_scenario_matches :
    oracle_scenario_stack_scaled Policy.uninitialized = [4, 6, 8, 0, 9, 0] ∧
    oracle_scenario_stack_scaled Policy.bzero = [4, 0, 8, 0, 9, 0] := by
  decide

set_option maxRecDepth 2000 in
/-- Model validation against the `tests/lib.rs` oracle: the full
`uninitialized_stack_pool_free_null` / `stack_pool_free_null` sequence at
its literal scale (capacity 8, 248-byte Region).  Eight zero-size
allocations cost nothing; eight 31-byte cells exhaust the Region exactly;
after freeing all of them, eight more 31-byte allocations all succeed
with full length (total 248) and every write of 4 at index 30 lands —
with the overflow counter still zero and the cursor back at 8. -/
theorem oracle_free_null_scenario_matches :
    oracle_scenario_free_null Policy.uninitialized = [0, 8, 248, 32] ∧
    oracle_scenario_free_null Policy.bzero = [0, 8, 248, 32] := by
  decide
